import Mathlib

/-!
Shallow embedding of the `ConnectionManager` broadcast hub from
`examples/websocket_example.py` of the agniapi repository.

Modelling choices, each matching the Python source:
* A `WebSocket` handle is opaque to the hub; we model it as a natural
  number key (`Conn`).  Python compares handles by object identity,
  which is equality on these keys.
* `active_connections` is a Python `list`, modelled as `List Conn`
  (duplicates possible, order preserved).
* `rooms` is a Python `dict` from room name to a `list` of handles,
  modelled as an association list `List (String × List Conn)` in
  insertion order; keys are inserted at most once (`roomsAdd` only
  creates a key when absent, as the code does).
* `websocket.send_json(message)` either succeeds or raises; we model
  the transport by a failure predicate `fails : Conn → Bool` fixed for
  the duration of one hub call (the socket is either dead or alive
  while the call runs).  Message payloads are opaque and never affect
  control flow, so they are not modelled.
* `disconnect` schedules `user_left` broadcasts with
  `asyncio.create_task` (fire and forget); those notifications carry no
  membership effect of their own at the time of the `disconnect` call
  and are not part of its state transition.  Their eventual execution
  is a `broadcast_to_room` call, which the operation language `Op`
  below can express, so reachable states are unaffected.
-/

abbrev Conn := Nat

/-- State of `ConnectionManager`: `self.active_connections` (a list) and
`self.rooms` (an insertion-ordered dict of room name to member list). -/
structure Hub where
  active_connections : List Conn
  rooms : List (String × List Conn)
deriving DecidableEq, Repr

/-- Source `ConnectionManager.__init__`: empty registry, empty room dict. -/
def emptyHub : Hub := ⟨[], []⟩

/-- Python `self.rooms.get(room)` / `room in self.rooms`: first entry with
the given key, scanned in insertion order. -/
def lookupRoom (r : String) : List (String × List Conn) → Option (List Conn)
  | [] => none
  | (name, conns) :: rest => if name = r then some conns else lookupRoom r rest

/-- Python `self.rooms.get(room)` on a hub. -/
def findRoom (h : Hub) (r : String) : Option (List Conn) :=
  lookupRoom r h.rooms

/-- Python `room in self.rooms`. -/
def hasRoom (h : Hub) (r : String) : Bool :=
  (findRoom h r).isSome

/-- Lines 34-36 of the source: `if room not in self.rooms:
self.rooms[room] = []` followed by `self.rooms[room].append(websocket)`.
A missing key is created at the end of the dict (insertion order);
the handle is appended unconditionally. -/
def roomsAdd (ws : Conn) (r : String) :
    List (String × List Conn) → List (String × List Conn)
  | [] => [(r, [ws])]
  | (name, conns) :: rest =>
      if name = r then (name, conns ++ [ws]) :: rest
      else (name, conns) :: roomsAdd ws r rest

/-- The membership mutation of `ConnectionManager.connect` (lines 32-36):
append to `active_connections`, then append to the room's list. -/
def connectMembership (ws : Conn) (r : String) (h : Hub) : Hub :=
  ⟨h.active_connections ++ [ws], roomsAdd ws r h.rooms⟩

/-- One room entry under `disconnect`: `if websocket in connections:
connections.remove(websocket)` — Python `list.remove` deletes only the
first occurrence. -/
def scrub (ws : Conn) (p : String × List Conn) : String × List Conn :=
  if ws ∈ p.2 then (p.1, p.2.erase ws) else p

/-- Source `ConnectionManager.disconnect` (lines 51-72): remove the first
occurrence from `active_connections` if present (`List.erase` is exactly
that), and the first occurrence from each room's list that contains the
handle.  The scheduled `user_left` notifications are fire-and-forget and
carry no membership effect here. -/
def disconnect (ws : Conn) (h : Hub) : Hub :=
  ⟨h.active_connections.erase ws, h.rooms.map (scrub ws)⟩

/-- The only error the spec ever names; the Python code represents it as
an exception raised by `send_json`. -/
inductive SendError where
  | sendFailed
deriving DecidableEq, Repr

/-- Source `ConnectionManager.send_personal_message` (lines 74-79):
`try: await websocket.send_json(message) except: self.disconnect(websocket)`.
The bare `except` swallows the failure; the function returns `None` on
both paths, so the caller-visible error component is always `none`. -/
def sendPersonalMessage (fails : Conn → Bool) (ws : Conn) (h : Hub) :
    Hub × Option SendError :=
  if fails ws then (disconnect ws h, none) else (h, none)

/-- The cleanup loop shared by both broadcast operations (lines 96-98 and
109-111): `for connection in disconnected: self.disconnect(connection)`. -/
def cleanupDisconnected (ds : List Conn) (h : Hub) : Hub :=
  ds.foldl (fun hh c => disconnect c hh) h

/-- Python `if connection == exclude: continue` applied over the member list;
with `exclude=None` no member is skipped (a handle never equals `None`). -/
def excludeFilter (exclude : Option Conn) (l : List Conn) : List Conn :=
  l.filter (fun c => decide (some c ≠ exclude))

/-- Observable trace of one broadcast call: the resulting hub, the
members whose `send_json` was invoked, those for which it succeeded, and
the `disconnected` accumulator of the source. -/
structure BroadcastResult where
  hub : Hub
  attempted : List Conn
  delivered : List Conn
  disconnected : List Conn
deriving DecidableEq, Repr

/-- Source `ConnectionManager.broadcast_to_room` (lines 81-98).  Unknown room:
silent return.  Otherwise one send attempt per non-excluded member of the
member list at call time; failures are accumulated in `disconnected` and,
after the full pass, `self.disconnect` runs once per accumulated entry in
order.  Sends mutate no membership state, so the loop over the live list
coincides with a loop over the call-time list. -/
def broadcastToRoom (fails : Conn → Bool) (room : String)
    (exclude : Option Conn) (h : Hub) : BroadcastResult :=
  match findRoom h room with
  | none => ⟨h, [], [], []⟩
  | some members =>
      let targets := excludeFilter exclude members
      let delivered := targets.filter (fun c => !(fails c))
      let disconnected := targets.filter (fun c => fails c)
      ⟨cleanupDisconnected disconnected h, targets, delivered, disconnected⟩

/-- Source `ConnectionManager.broadcast_to_all` (lines 100-111): the same
two-phase pass over `active_connections`, with no exclusion. -/
def broadcastToAll (fails : Conn → Bool) (h : Hub) : BroadcastResult :=
  let targets := h.active_connections
  ⟨cleanupDisconnected (targets.filter (fun c => fails c)) h,
   targets,
   targets.filter (fun c => !(fails c)),
   targets.filter (fun c => fails c)⟩

/-- Source `ConnectionManager.connect` (lines 29-49): membership mutation, then
an awaited `user_joined` broadcast to the room excluding the joiner. -/
def connect (fails : Conn → Bool) (ws : Conn) (room : String) (h : Hub) : Hub :=
  (broadcastToRoom fails room (some ws) (connectMembership ws room h)).hub

/-- Return value of `get_room_info`; the source names the existence field
`"active"` (the spec calls it `exists`). -/
structure RoomInfo where
  room : String
  connections : Nat
  active : Bool
deriving DecidableEq, Repr

/-- Source `ConnectionManager.get_room_info` (lines 113-119):
`len(self.rooms.get(room, []))` and `room in self.rooms`. -/
def getRoomInfo (h : Hub) (room : String) : RoomInfo :=
  { room := room
    connections := match findRoom h room with
      | some l => l.length
      | none => 0
    active := hasRoom h room }

/-- Return value of `get_stats`; the timestamp is wall-clock noise and is
not modelled. -/
structure Stats where
  total_connections : Nat
  rooms : List (String × Nat)
deriving DecidableEq, Repr

/-- Source `ConnectionManager.get_stats` (lines 121-127): registry length and a
room-to-member-count mapping built from every entry of `self.rooms`. -/
def getStats (h : Hub) : Stats :=
  ⟨h.active_connections.length,
   h.rooms.map (fun p => (p.1, p.2.length))⟩

/-- The hub calls a collaborator can make, each parameterised by the
socket-failure state during that call. -/
inductive Op where
  | join (fails : Conn → Bool) (c : Conn) (room : String)
  | leave (c : Conn)
  | personal (fails : Conn → Bool) (c : Conn)
  | roomCast (fails : Conn → Bool) (room : String) (exclude : Option Conn)
  | allCast (fails : Conn → Bool)

/-- State transition of one hub call. -/
def applyOp (h : Hub) : Op → Hub
  | .join f c r => connect f c r h
  | .leave c => disconnect c h
  | .personal f c => (sendPersonalMessage f c h).1
  | .roomCast f r e => (broadcastToRoom f r e h).hub
  | .allCast f => (broadcastToAll f h).hub

/-- State after a finite sequence of hub calls. -/
def applyOps (h : Hub) (ops : List Op) : Hub :=
  ops.foldl applyOp h

/-- Number of occurrences of a handle in the member list of a room
(0 when the room does not exist). -/
def roomCount (h : Hub) (r : String) (c : Conn) : Nat :=
  match findRoom h r with
  | some l => l.count c
  | none => 0

/-- The handle is a member of at least one room's list. -/
def inSomeRoom (h : Hub) (c : Conn) : Prop :=
  ∃ p ∈ h.rooms, c ∈ p.2

/-- Every membership list of the hub is duplicate-free (the "set-like"
states, i.e. those in which no handle was joined twice without leaving). -/
def HubNodup (h : Hub) : Prop :=
  h.active_connections.Nodup ∧ ∀ p ∈ h.rooms, p.2.Nodup

/-- Room-count/registry-count invariant: every room list contains a
handle at most as often as the registry does. -/
def HubInv (h : Hub) : Prop :=
  ∀ (c : Conn), ∀ p ∈ h.rooms, p.2.count c ≤ h.active_connections.count c

/-- The handle appears nowhere in the hub's membership state. -/
def Untracked (h : Hub) (c : Conn) : Prop :=
  c ∉ h.active_connections ∧ ∀ p ∈ h.rooms, c ∉ p.2

/-- The handle is a member of the named room. -/
def memRoom (h : Hub) (r : String) (c : Conn) : Prop :=
  ∃ l, findRoom h r = some l ∧ c ∈ l

instance (h : Hub) (c : Conn) : Decidable (inSomeRoom h c) := by
  unfold inSomeRoom; infer_instance

instance (h : Hub) : Decidable (HubNodup h) := by
  unfold HubNodup; infer_instance

instance (h : Hub) (c : Conn) : Decidable (Untracked h c) := by
  unfold Untracked; infer_instance

/-- Transport in which every send succeeds. -/
def noFail : Conn → Bool := fun _ => false

/-- Transport in which exactly the given handle's socket is dead. -/
def failsOnly (d : Conn) : Conn → Bool := fun c => c == d

/-- Concrete three-member hub used to instantiate the theorems below. -/
def hubABC : Hub := ⟨[1, 2, 3], [("a", [1, 2, 3])]⟩

/-! ### Structural lemmas about the room index -/

theorem scrub_fst (ws : Conn) (p : String × List Conn) : (scrub ws p).1 = p.1 := by
  unfold scrub; split <;> rfl

theorem scrub_snd (ws : Conn) (p : String × List Conn) :
    (scrub ws p).2 = if ws ∈ p.2 then p.2.erase ws else p.2 := by
  by_cases hw : ws ∈ p.2 <;> simp [scrub, hw]

theorem lookupRoom_some_mem {r : String} {rooms : List (String × List Conn)}
    {l : List Conn} (h : lookupRoom r rooms = some l) : (r, l) ∈ rooms := by
  induction rooms with
  | nil => simp [lookupRoom] at h
  | cons p rest ih =>
    obtain ⟨name, conns⟩ := p
    by_cases hn : name = r
    · subst hn
      simp [lookupRoom] at h
      subst h
      exact List.mem_cons_self _ _
    · simp [lookupRoom, hn] at h
      exact List.mem_cons_of_mem _ (ih h)

theorem mem_lookupRoom_isSome {r : String} {rooms : List (String × List Conn)}
    {l : List Conn} (h : (r, l) ∈ rooms) : (lookupRoom r rooms).isSome = true := by
  induction rooms with
  | nil => simp at h
  | cons p rest ih =>
    obtain ⟨name, conns⟩ := p
    rcases List.mem_cons.mp h with heq | hmem
    · cases heq
      simp [lookupRoom]
    · by_cases hn : name = r
      · simp [lookupRoom, hn]
      · simpa [lookupRoom, hn] using ih hmem

theorem scrub_eq (ws : Conn) (p : String × List Conn) :
    scrub ws p = (p.1, if ws ∈ p.2 then p.2.erase ws else p.2) := by
  by_cases hw : ws ∈ p.2 <;> simp [scrub, hw]

theorem lookupRoom_map_scrub (ws : Conn) (r : String)
    (rooms : List (String × List Conn)) :
    lookupRoom r (rooms.map (scrub ws))
      = (lookupRoom r rooms).map (fun l => if ws ∈ l then l.erase ws else l) := by
  induction rooms with
  | nil => rfl
  | cons p rest ih =>
    obtain ⟨name, conns⟩ := p
    rw [List.map_cons, scrub_eq]
    by_cases hn : name = r
    · simp [lookupRoom, hn]
    · simp [lookupRoom, hn, ih]

theorem findRoom_disconnect (ws : Conn) (h : Hub) (r : String) :
    findRoom (disconnect ws h) r
      = (findRoom h r).map (fun l => if ws ∈ l then l.erase ws else l) :=
  lookupRoom_map_scrub ws r h.rooms

theorem lookupRoom_roomsAdd_self (ws : Conn) (r : String)
    (rooms : List (String × List Conn)) :
    lookupRoom r (roomsAdd ws r rooms)
      = some (((lookupRoom r rooms).getD []) ++ [ws]) := by
  induction rooms with
  | nil => simp [roomsAdd, lookupRoom]
  | cons p rest ih =>
    obtain ⟨name, conns⟩ := p
    by_cases hn : name = r
    · simp [roomsAdd, lookupRoom, hn]
    · simp [roomsAdd, lookupRoom, hn, ih]

theorem lookupRoom_roomsAdd_ne {r' r : String} (hne : r' ≠ r) (ws : Conn)
    (rooms : List (String × List Conn)) :
    lookupRoom r' (roomsAdd ws r rooms) = lookupRoom r' rooms := by
  induction rooms with
  | nil => simp [roomsAdd, lookupRoom, Ne.symm hne]
  | cons p rest ih =>
    obtain ⟨name, conns⟩ := p
    by_cases hn : name = r
    · subst hn
      simp [roomsAdd, lookupRoom, Ne.symm hne]
    · simp [roomsAdd, lookupRoom, hn, ih]

theorem mem_excludeFilter {exclude : Option Conn} {l : List Conn} {c : Conn} :
    c ∈ excludeFilter exclude l ↔ c ∈ l ∧ some c ≠ exclude := by
  simp [excludeFilter, List.mem_filter]

theorem excludeFilter_none (l : List Conn) : excludeFilter none l = l := by
  simp [excludeFilter]

/-! ### Counting lemmas: room counts never exceed registry counts -/

theorem count_scrub_le {c ws : Conn} {p : String × List Conn} :
    (scrub ws p).2.count c ≤ p.2.count c := by
  rw [scrub_snd]
  split
  · exact (List.erase_sublist ws p.2).count_le c
  · exact Nat.le_refl _

theorem count_scrub_of_ne {c ws : Conn} (hne : c ≠ ws) (p : String × List Conn) :
    (scrub ws p).2.count c = p.2.count c := by
  rw [scrub_snd]
  split
  · exact List.count_erase_of_ne hne p.2
  · rfl

theorem count_scrub_self {ws : Conn} (p : String × List Conn) :
    (scrub ws p).2.count ws = p.2.count ws - 1 ∨
      ((scrub ws p).2.count ws = 0 ∧ p.2.count ws = 0) := by
  rw [scrub_snd]
  by_cases hw : ws ∈ p.2
  · exact Or.inl (by rw [if_pos hw, List.count_erase_self])
  · refine Or.inr ?_
    rw [if_neg hw]
    exact ⟨List.count_eq_zero.mpr hw, List.count_eq_zero.mpr hw⟩

theorem hubInv_disconnect {h : Hub} (inv : HubInv h) (ws : Conn) :
    HubInv (disconnect ws h) := by
  intro c p' hp'
  obtain ⟨p, hp, rfl⟩ := List.mem_map.mp hp'
  show (scrub ws p).2.count c ≤ (h.active_connections.erase ws).count c
  by_cases hc : c = ws
  · subst hc
    rcases @count_scrub_self c p with hcase | hcase
    · rw [hcase, List.count_erase_self]
      exact Nat.sub_le_sub_right (inv c p hp) 1
    · rw [hcase.1]; exact Nat.zero_le _
  · rw [count_scrub_of_ne hc, List.count_erase_of_ne hc]
    exact inv c p hp

theorem roomsAdd_cases {p' : String × List Conn} {ws : Conn} {r : String}
    {rooms : List (String × List Conn)} (hp' : p' ∈ roomsAdd ws r rooms) :
    p' ∈ rooms ∨ (∃ conns, (r, conns) ∈ rooms ∧ p' = (r, conns ++ [ws])) ∨
      p' = (r, [ws]) := by
  induction rooms with
  | nil =>
    simp [roomsAdd] at hp'
    exact Or.inr (Or.inr hp')
  | cons q rest ih =>
    obtain ⟨name, conns⟩ := q
    by_cases hn : name = r
    · subst hn
      simp only [roomsAdd, if_pos rfl] at hp'
      rcases List.mem_cons.mp hp' with heq | hmem
      · subst heq
        exact Or.inr (Or.inl ⟨conns, List.mem_cons_self _ _, rfl⟩)
      · exact Or.inl (List.mem_cons_of_mem _ hmem)
    · simp only [roomsAdd, if_neg hn] at hp'
      rcases List.mem_cons.mp hp' with heq | hmem
      · subst heq
        exact Or.inl (List.mem_cons_self _ _)
      · rcases ih hmem with hcase | hcase | hcase
        · exact Or.inl (List.mem_cons_of_mem _ hcase)
        · obtain ⟨cs, hcs, rfl⟩ := hcase
          exact Or.inr (Or.inl ⟨cs, List.mem_cons_of_mem _ hcs, rfl⟩)
        · exact Or.inr (Or.inr hcase)

theorem hubInv_connectMembership {h : Hub} (inv : HubInv h) (ws : Conn)
    (r : String) : HubInv (connectMembership ws r h) := by
  intro c p' hp'
  show p'.2.count c ≤ (h.active_connections ++ [ws]).count c
  rw [List.count_append]
  rcases roomsAdd_cases hp' with hcase | hcase | hcase
  · exact Nat.le_trans (inv c p' hcase) (Nat.le_add_right _ _)
  · obtain ⟨cs, hcs, rfl⟩ := hcase
    show (cs ++ [ws]).count c ≤ _
    rw [List.count_append]
    exact Nat.add_le_add_right (inv c (r, cs) hcs) _
  · subst hcase
    show List.count c [ws] ≤ _
    exact Nat.le_add_left _ _

theorem hubInv_cleanup {h : Hub} (inv : HubInv h) (ds : List Conn) :
    HubInv (cleanupDisconnected ds h) := by
  induction ds generalizing h with
  | nil => exact inv
  | cons d rest ih => exact ih (hubInv_disconnect inv d)

theorem hubInv_broadcastRoom {h : Hub} (inv : HubInv h) (fails : Conn → Bool)
    (room : String) (exclude : Option Conn) :
    HubInv (broadcastToRoom fails room exclude h).hub := by
  unfold broadcastToRoom
  cases hfr : findRoom h room with
  | none => exact inv
  | some members => exact hubInv_cleanup inv _

theorem hubInv_broadcastAll {h : Hub} (inv : HubInv h) (fails : Conn → Bool) :
    HubInv (broadcastToAll fails h).hub :=
  hubInv_cleanup inv _

theorem hubInv_applyOp {h : Hub} (inv : HubInv h) (op : Op) :
    HubInv (applyOp h op) := by
  cases op with
  | join f c r => exact hubInv_broadcastRoom (hubInv_connectMembership inv c r) f r (some c)
  | leave c => exact hubInv_disconnect inv c
  | personal f c =>
    show HubInv (sendPersonalMessage f c h).1
    by_cases hf : f c
    · simpa [sendPersonalMessage, hf] using hubInv_disconnect inv c
    · simpa [sendPersonalMessage, hf] using inv
  | roomCast f r e => exact hubInv_broadcastRoom inv f r e
  | allCast f => exact hubInv_broadcastAll inv f

theorem hubInv_empty : HubInv emptyHub := by
  intro c p hp
  simp [emptyHub] at hp

theorem hubInv_applyOps (ops : List Op) {h : Hub} (inv : HubInv h) :
    HubInv (applyOps h ops) := by
  induction ops generalizing h with
  | nil => exact inv
  | cons op rest ih => exact ih (hubInv_applyOp inv op)

/-! ### Duplicate-freeness and removal lemmas for `disconnect` -/

theorem scrub_nodup {ws : Conn} {p : String × List Conn} (hnd : p.2.Nodup) :
    (scrub ws p).2.Nodup := by
  rw [scrub_snd]
  split
  · exact hnd.erase ws
  · exact hnd

theorem scrub_not_mem_self {ws : Conn} {p : String × List Conn}
    (hnd : p.2.Nodup) : ws ∉ (scrub ws p).2 := by
  rw [scrub_snd]
  split
  · exact hnd.not_mem_erase
  · assumption

theorem scrub_not_mem {c ws : Conn} {p : String × List Conn}
    (habs : c ∉ p.2) : c ∉ (scrub ws p).2 := by
  rw [scrub_snd]
  split
  · exact fun hmem => habs ((List.erase_sublist ws p.2).subset hmem)
  · exact habs

theorem scrub_mem_of_ne {c ws : Conn} (hne : c ≠ ws) (p : String × List Conn) :
    c ∈ (scrub ws p).2 ↔ c ∈ p.2 := by
  rw [scrub_snd]
  split
  · exact List.mem_erase_of_ne hne
  · exact Iff.rfl

theorem hubNodup_disconnect {h : Hub} (hnd : HubNodup h) (ws : Conn) :
    HubNodup (disconnect ws h) := by
  refine ⟨hnd.1.erase ws, ?_⟩
  intro p' hp'
  obtain ⟨p, hp, rfl⟩ := List.mem_map.mp hp'
  exact scrub_nodup (hnd.2 p hp)

theorem untracked_self_disconnect {h : Hub} (hnd : HubNodup h) (ws : Conn) :
    Untracked (disconnect ws h) ws := by
  refine ⟨hnd.1.not_mem_erase, ?_⟩
  intro p' hp'
  obtain ⟨p, hp, rfl⟩ := List.mem_map.mp hp'
  exact scrub_not_mem_self (hnd.2 p hp)

theorem untracked_disconnect {h : Hub} {c : Conn} (hu : Untracked h c)
    (d : Conn) : Untracked (disconnect d h) c := by
  refine ⟨fun hmem => hu.1 ((List.erase_sublist d _).subset hmem), ?_⟩
  intro p' hp'
  obtain ⟨p, hp, rfl⟩ := List.mem_map.mp hp'
  exact scrub_not_mem (hu.2 p hp)

theorem untracked_cleanup {h : Hub} {c : Conn} (hu : Untracked h c)
    (ds : List Conn) : Untracked (cleanupDisconnected ds h) c := by
  induction ds generalizing h with
  | nil => exact hu
  | cons d rest ih => exact ih (untracked_disconnect hu d)

theorem hubNodup_cleanup {h : Hub} (hnd : HubNodup h) (ds : List Conn) :
    HubNodup (cleanupDisconnected ds h) := by
  induction ds generalizing h with
  | nil => exact hnd
  | cons d rest ih => exact ih (hubNodup_disconnect hnd d)

theorem cleanup_removes {h : Hub} (hnd : HubNodup h) {ds : List Conn} :
    ∀ c ∈ ds, Untracked (cleanupDisconnected ds h) c := by
  induction ds generalizing h with
  | nil => intro c hc; simp at hc
  | cons d rest ih =>
    intro c hc
    rcases List.mem_cons.mp hc with rfl | hmem
    · exact untracked_cleanup (untracked_self_disconnect hnd c) rest
    · exact ih (hubNodup_disconnect hnd d) c hmem

/-! ### Membership of other handles is untouched by cleanup -/

theorem mem_active_disconnect_iff {c d : Conn} (hne : c ≠ d) (h : Hub) :
    c ∈ (disconnect d h).active_connections ↔ c ∈ h.active_connections :=
  List.mem_erase_of_ne hne

theorem memRoom_disconnect_iff {c d : Conn} (hne : c ≠ d) (h : Hub)
    (r : String) : memRoom (disconnect d h) r c ↔ memRoom h r c := by
  unfold memRoom
  rw [findRoom_disconnect]
  cases hfr : findRoom h r with
  | none => simp
  | some l =>
    show (∃ l', some (if d ∈ l then l.erase d else l) = some l' ∧ c ∈ l') ↔
      ∃ l', some l = some l' ∧ c ∈ l'
    constructor
    · rintro ⟨l', heq, hmem⟩
      cases heq
      refine ⟨l, rfl, ?_⟩
      by_cases hd : d ∈ l
      · rw [if_pos hd] at hmem
        exact (List.mem_erase_of_ne hne).mp hmem
      · rwa [if_neg hd] at hmem
    · rintro ⟨l', heq, hmem⟩
      cases heq
      refine ⟨_, rfl, ?_⟩
      by_cases hd : d ∈ l
      · rw [if_pos hd]
        exact (List.mem_erase_of_ne hne).mpr hmem
      · rwa [if_neg hd]

theorem mem_active_cleanup_iff {c : Conn} {ds : List Conn}
    (hds : ∀ d ∈ ds, d ≠ c) (h : Hub) :
    c ∈ (cleanupDisconnected ds h).active_connections ↔
      c ∈ h.active_connections := by
  induction ds generalizing h with
  | nil => exact Iff.rfl
  | cons d rest ih =>
    have hdc : c ≠ d := Ne.symm (hds d (List.mem_cons_self _ _))
    calc c ∈ (cleanupDisconnected rest (disconnect d h)).active_connections
        ↔ c ∈ (disconnect d h).active_connections :=
          ih (fun e he => hds e (List.mem_cons_of_mem _ he)) _
      _ ↔ c ∈ h.active_connections := mem_active_disconnect_iff hdc h

theorem memRoom_cleanup_iff {c : Conn} {ds : List Conn}
    (hds : ∀ d ∈ ds, d ≠ c) (h : Hub) (r : String) :
    memRoom (cleanupDisconnected ds h) r c ↔ memRoom h r c := by
  induction ds generalizing h with
  | nil => exact Iff.rfl
  | cons d rest ih =>
    have hdc : c ≠ d := Ne.symm (hds d (List.mem_cons_self _ _))
    calc memRoom (cleanupDisconnected rest (disconnect d h)) r c
        ↔ memRoom (disconnect d h) r c :=
          ih (fun e he => hds e (List.mem_cons_of_mem _ he)) _
      _ ↔ memRoom h r c := memRoom_disconnect_iff hdc h r

/-! ### Occurrence counts of other handles are untouched by cleanup -/

theorem roomCount_eq_getD (h : Hub) (r : String) (c : Conn) :
    roomCount h r c = ((findRoom h r).getD []).count c := by
  unfold roomCount
  cases findRoom h r <;> rfl

theorem count_active_disconnect_of_ne {c d : Conn} (hne : c ≠ d) (h : Hub) :
    (disconnect d h).active_connections.count c
      = h.active_connections.count c :=
  List.count_erase_of_ne hne _

theorem roomCount_disconnect_of_ne {c d : Conn} (hne : c ≠ d) (h : Hub)
    (r : String) : roomCount (disconnect d h) r c = roomCount h r c := by
  rw [roomCount_eq_getD, roomCount_eq_getD, findRoom_disconnect]
  cases findRoom h r with
  | none => rfl
  | some l =>
    show (if d ∈ l then l.erase d else l).count c = l.count c
    split
    · exact List.count_erase_of_ne hne l
    · rfl

theorem count_active_cleanup {c : Conn} {ds : List Conn}
    (hds : ∀ d ∈ ds, d ≠ c) (h : Hub) :
    (cleanupDisconnected ds h).active_connections.count c
      = h.active_connections.count c := by
  induction ds generalizing h with
  | nil => rfl
  | cons d rest ih =>
    have hdc : c ≠ d := Ne.symm (hds d (List.mem_cons_self _ _))
    calc (cleanupDisconnected rest (disconnect d h)).active_connections.count c
        = (disconnect d h).active_connections.count c :=
          ih (fun e he => hds e (List.mem_cons_of_mem _ he)) _
      _ = h.active_connections.count c := count_active_disconnect_of_ne hdc h

theorem roomCount_cleanup {c : Conn} {ds : List Conn}
    (hds : ∀ d ∈ ds, d ≠ c) (h : Hub) (r : String) :
    roomCount (cleanupDisconnected ds h) r c = roomCount h r c := by
  induction ds generalizing h with
  | nil => rfl
  | cons d rest ih =>
    have hdc : c ≠ d := Ne.symm (hds d (List.mem_cons_self _ _))
    calc roomCount (cleanupDisconnected rest (disconnect d h)) r c
        = roomCount (disconnect d h) r c :=
          ih (fun e he => hds e (List.mem_cons_of_mem _ he)) _
      _ = roomCount h r c := roomCount_disconnect_of_ne hdc h r

/-! ### Room keys are never deleted -/

theorem hasRoom_disconnect (d : Conn) (h : Hub) (r : String) :
    hasRoom (disconnect d h) r = hasRoom h r := by
  unfold hasRoom
  rw [findRoom_disconnect]
  cases findRoom h r <;> rfl

theorem hasRoom_cleanup (ds : List Conn) (h : Hub) (r : String) :
    hasRoom (cleanupDisconnected ds h) r = hasRoom h r := by
  induction ds generalizing h with
  | nil => rfl
  | cons d rest ih =>
    calc hasRoom (cleanupDisconnected rest (disconnect d h)) r
        = hasRoom (disconnect d h) r := ih _
      _ = hasRoom h r := hasRoom_disconnect d h r

theorem hasRoom_connectMembership_self (ws : Conn) (r : String) (h : Hub) :
    hasRoom (connectMembership ws r h) r = true := by
  unfold hasRoom findRoom connectMembership
  rw [lookupRoom_roomsAdd_self]
  rfl

theorem hasRoom_connectMembership_mono {h : Hub} {r' : String}
    (hr : hasRoom h r' = true) (ws : Conn) (r : String) :
    hasRoom (connectMembership ws r h) r' = true := by
  by_cases heq : r' = r
  · subst heq
    exact hasRoom_connectMembership_self ws r' h
  · unfold hasRoom findRoom connectMembership
    rw [lookupRoom_roomsAdd_ne heq]
    exact hr

theorem hasRoom_broadcastRoom {h : Hub} {r' : String} (hr : hasRoom h r' = true)
    (fails : Conn → Bool) (room : String) (exclude : Option Conn) :
    hasRoom (broadcastToRoom fails room exclude h).hub r' = true := by
  unfold broadcastToRoom
  cases hfr : findRoom h room with
  | none => exact hr
  | some members => rw [hasRoom_cleanup]; exact hr

theorem hasRoom_applyOp {h : Hub} {r' : String} (hr : hasRoom h r' = true)
    (op : Op) : hasRoom (applyOp h op) r' = true := by
  cases op with
  | join f c r =>
    exact hasRoom_broadcastRoom (hasRoom_connectMembership_mono hr c r) f r (some c)
  | leave c => rw [show applyOp h (Op.leave c) = disconnect c h from rfl,
      hasRoom_disconnect]; exact hr
  | personal f c =>
    show hasRoom (sendPersonalMessage f c h).1 r' = true
    by_cases hf : f c
    · simp only [sendPersonalMessage, if_pos hf]
      rw [hasRoom_disconnect]; exact hr
    · simpa [sendPersonalMessage, hf] using hr
  | roomCast f r e => exact hasRoom_broadcastRoom hr f r e
  | allCast f =>
    show hasRoom (broadcastToAll f h).hub r' = true
    unfold broadcastToAll
    rw [hasRoom_cleanup]; exact hr

theorem hasRoom_applyOps {h : Hub} {r' : String} (hr : hasRoom h r' = true)
    (ops : List Op) : hasRoom (applyOps h ops) r' = true := by
  induction ops generalizing h with
  | nil => exact hr
  | cons op rest ih => exact ih (hasRoom_applyOp hr op)

theorem hasRoom_connect_self (fails : Conn → Bool) (ws : Conn) (room : String)
    (h : Hub) : hasRoom (connect fails ws room h) room = true :=
  hasRoom_broadcastRoom (hasRoom_connectMembership_self ws room h) fails room
    (some ws)

theorem hasRoom_stats_mem {h : Hub} {r : String} (hr : hasRoom h r = true) :
    ∃ n, (r, n) ∈ (getStats h).rooms := by
  unfold hasRoom findRoom at hr
  obtain ⟨l, hl⟩ := Option.isSome_iff_exists.mp hr
  refine ⟨l.length, ?_⟩
  exact List.mem_map.mpr ⟨(r, l), lookupRoom_some_mem hl, rfl⟩

/-! ### Unfolding equations for the broadcast operations -/

theorem broadcastToRoom_of_none {fails : Conn → Bool} {room : String}
    {exclude : Option Conn} {h : Hub} (hm : findRoom h room = none) :
    broadcastToRoom fails room exclude h = ⟨h, [], [], []⟩ := by
  unfold broadcastToRoom
  rw [hm]

theorem broadcastToRoom_of_some {fails : Conn → Bool} {room : String}
    {exclude : Option Conn} {h : Hub} {members : List Conn}
    (hm : findRoom h room = some members) :
    broadcastToRoom fails room exclude h =
      ⟨cleanupDisconnected
          ((excludeFilter exclude members).filter (fun c => fails c)) h,
        excludeFilter exclude members,
        (excludeFilter exclude members).filter (fun c => !(fails c)),
        (excludeFilter exclude members).filter (fun c => fails c)⟩ := by
  unfold broadcastToRoom
  rw [hm]

theorem length_filter_partition (l : List Conn) (p : Conn → Bool) :
    (l.filter (fun c => !(p c))).length + (l.filter p).length = l.length := by
  induction l with
  | nil => rfl
  | cons a rest ih =>
    by_cases hp : p a <;> simp [List.filter_cons, hp] <;> omega

/-! ### Claim theorems -/

/-- C4: `broadcast_to_room(room, m, exclude=c)` never delivers the message
to `c` — the send to `c` is not even attempted — and, regardless of which
members fail, every other member of the member-list snapshot taken at call
time gets exactly its own send attempt, which succeeds for every member
whose own socket works. -/
theorem broadcast_exclude_snapshot (fails : Conn → Bool) (room : String)
    (c : Conn) (h : Hub) :
    c ∉ (broadcastToRoom fails room (some c) h).attempted ∧
    c ∉ (broadcastToRoom fails room (some c) h).delivered ∧
    ∀ members, findRoom h room = some members →
      ∀ m ∈ members, m ≠ c →
        m ∈ (broadcastToRoom fails room (some c) h).attempted ∧
        (fails m = false →
          m ∈ (broadcastToRoom fails room (some c) h).delivered) := by
  cases hfr : findRoom h room with
  | none =>
    rw [broadcastToRoom_of_none hfr]
    refine ⟨by simp, by simp, ?_⟩
    intro members hmem
    cases hmem
  | some ms =>
    rw [broadcastToRoom_of_some hfr]
    refine ⟨?_, ?_, ?_⟩
    · intro hc
      exact (mem_excludeFilter.mp hc).2 rfl
    · intro hc
      exact (mem_excludeFilter.mp (List.mem_filter.mp hc).1).2 rfl
    · intro members hmem m hm hne
      have hms : ms = members := Option.some.inj hmem
      subst hms
      have hmA : m ∈ excludeFilter (some c) ms :=
        mem_excludeFilter.mpr ⟨hm, fun heq => hne (Option.some.inj heq)⟩
      refine ⟨hmA, fun hfm => ?_⟩
      exact List.mem_filter.mpr ⟨hmA, by rw [hfm]; rfl⟩

/-- Witness for C4 at a concrete hub: excluding handle 2 from a broadcast
to room "a" of `hubABC`. -/
theorem broadcast_exclude_snapshot_witness :
    2 ∉ (broadcastToRoom noFail "a" (some 2) hubABC).attempted ∧
    2 ∉ (broadcastToRoom noFail "a" (some 2) hubABC).delivered ∧
    ∀ members, findRoom hubABC "a" = some members →
      ∀ m ∈ members, m ≠ 2 →
        m ∈ (broadcastToRoom noFail "a" (some 2) hubABC).attempted ∧
        (noFail m = false →
          m ∈ (broadcastToRoom noFail "a" (some 2) hubABC).delivered) :=
  broadcast_exclude_snapshot noFail "a" 2 hubABC

/-- C8: `get_room_info` is a pure read; its `active` field (the spec's
`exists`) is true exactly when the room name is a key of the room index,
and its member count is 0 exactly when the room is absent or empty. -/
theorem room_info_pure_read (h : Hub) (room : String) :
    ((getRoomInfo h room).active = true ↔ ∃ l, (room, l) ∈ h.rooms) ∧
    ((getRoomInfo h room).connections = 0 ↔
      (findRoom h room = none ∨ findRoom h room = some [])) ∧
    (getRoomInfo h room).room = room := by
  refine ⟨?_, ?_, rfl⟩
  · show (hasRoom h room = true ↔ _)
    unfold hasRoom findRoom
    constructor
    · intro hs
      obtain ⟨l, hl⟩ := Option.isSome_iff_exists.mp hs
      exact ⟨l, lookupRoom_some_mem hl⟩
    · rintro ⟨l, hl⟩
      exact mem_lookupRoom_isSome hl
  · cases hfr : findRoom h room with
    | none => simp [getRoomInfo, hfr]
    | some l => simp [getRoomInfo, hfr, List.length_eq_zero]

/-- C9: a room created by a join is never deleted by any later sequence of
hub operations: it stays a key of the room index, `get_stats` keeps an
entry for it (member count included even when 0), and `get_room_info`
still reports it as existing, with count 0 once it is empty. -/
theorem rooms_never_deleted (f : Conn → Bool) (ws : Conn) (room : String)
    (h : Hub) (ops : List Op) :
    hasRoom (applyOps (connect f ws room h) ops) room = true ∧
    (∃ n, (room, n) ∈ (getStats (applyOps (connect f ws room h) ops)).rooms) ∧
    (getRoomInfo (applyOps (connect f ws room h) ops) room).active = true ∧
    (findRoom (applyOps (connect f ws room h) ops) room = some [] →
      (getRoomInfo (applyOps (connect f ws room h) ops) room).connections
        = 0) := by
  have h1 : hasRoom (applyOps (connect f ws room h) ops) room = true :=
    hasRoom_applyOps (hasRoom_connect_self f ws room h) ops
  refine ⟨h1, hasRoom_stats_mem h1, h1, ?_⟩
  intro hemp
  simp [getRoomInfo, hemp]

/-- Witness for C9: join handle 0 to room "a" and immediately leave; the
emptied room is still tracked. -/
theorem rooms_never_deleted_witness :
    hasRoom (applyOps (connect noFail 0 "a" emptyHub) [Op.leave 0]) "a"
        = true ∧
    (∃ n, (("a", n) ∈
      (getStats (applyOps (connect noFail 0 "a" emptyHub)
        [Op.leave 0])).rooms)) ∧
    (getRoomInfo (applyOps (connect noFail 0 "a" emptyHub) [Op.leave 0])
        "a").active = true ∧
    (findRoom (applyOps (connect noFail 0 "a" emptyHub) [Op.leave 0]) "a"
        = some [] →
      (getRoomInfo (applyOps (connect noFail 0 "a" emptyHub) [Op.leave 0])
        "a").connections = 0) :=
  rooms_never_deleted noFail 0 "a" emptyHub [Op.leave 0]

/-- C10: a broadcast in which every attempted send succeeds leaves the
registry and every room list exactly unchanged, both for
`broadcast_to_room` and for `broadcast_to_all`. -/
theorem broadcast_all_success_frame (fails g : Conn → Bool) (room : String)
    (exclude : Option Conn) (h : Hub) :
    ((∀ c ∈ (broadcastToRoom fails room exclude h).attempted,
        fails c = false) →
      (broadcastToRoom fails room exclude h).hub = h) ∧
    ((∀ c ∈ h.active_connections, g c = false) →
      (broadcastToAll g h).hub = h) := by
  constructor
  · intro hall
    cases hfr : findRoom h room with
    | none => rw [broadcastToRoom_of_none hfr]
    | some ms =>
      rw [broadcastToRoom_of_some hfr] at hall ⊢
      have hnil : (excludeFilter exclude ms).filter (fun c => fails c)
          = [] := by
        refine List.filter_eq_nil_iff.mpr ?_
        intro a ha
        rw [hall a ha]
        simp
      show cleanupDisconnected _ h = h
      rw [hnil]
      rfl
  · intro hall
    have hnil : h.active_connections.filter (fun c => g c) = [] := by
      refine List.filter_eq_nil_iff.mpr ?_
      intro a ha
      rw [hall a ha]
      simp
    show cleanupDisconnected _ h = h
    rw [hnil]
    rfl

/-- Witness for C10: an all-success broadcast over `hubABC` changes
nothing. -/
theorem broadcast_all_success_frame_witness :
    ((∀ c ∈ (broadcastToRoom noFail "a" none hubABC).attempted,
        noFail c = false) ∧
      (broadcastToRoom noFail "a" none hubABC).hub = hubABC) ∧
    ((∀ c ∈ hubABC.active_connections, noFail c = false) ∧
      (broadcastToAll noFail hubABC).hub = hubABC) :=
  ⟨⟨by decide,
    (broadcast_all_success_frame noFail noFail "a" none hubABC).1
      (by decide)⟩,
   ⟨by decide,
    (broadcast_all_success_frame noFail noFail "a" none hubABC).2
      (by decide)⟩⟩

/-- C3: for a duplicate-free hub, one `broadcast_to_room` call over a room
with member list `members` delivers the message exactly to the non-failing
members, accumulates exactly the failing members, removes each failing
member from the registry and from every room, leaves every non-failing
handle's membership untouched, issues `disconnect` at most once per failed
handle, and splits the `n` targeted members into the `n - k` receivers and
the `k` cleaned-up failures. -/
theorem broadcast_failed_cleanup (fails : Conn → Bool) (room : String)
    (h : Hub) (members : List Conn) (hm : findRoom h room = some members)
    (hnd : HubNodup h) :
    (broadcastToRoom fails room none h).delivered
        = members.filter (fun c => !(fails c)) ∧
    (broadcastToRoom fails room none h).disconnected
        = members.filter (fun c => fails c) ∧
    (∀ c ∈ (broadcastToRoom fails room none h).disconnected,
        Untracked (broadcastToRoom fails room none h).hub c) ∧
    (∀ c, fails c = false →
        ((c ∈ (broadcastToRoom fails room none h).hub.active_connections ↔
            c ∈ h.active_connections) ∧
          ∀ r, (memRoom (broadcastToRoom fails room none h).hub r c ↔
            memRoom h r c))) ∧
    (∀ c, (broadcastToRoom fails room none h).disconnected.count c ≤ 1) ∧
    (broadcastToRoom fails room none h).delivered.length
        + (broadcastToRoom fails room none h).disconnected.length
        = members.length := by
  have hmem : (room, members) ∈ h.rooms := lookupRoom_some_mem hm
  have hndm : members.Nodup := hnd.2 _ hmem
  rw [broadcastToRoom_of_some hm]
  rw [excludeFilter_none]
  refine ⟨rfl, rfl, ?_, ?_, ?_, ?_⟩
  · exact fun c hc => cleanup_removes hnd c hc
  · intro c hfc
    have hds : ∀ d ∈ members.filter (fun x => fails x), d ≠ c := by
      intro d hd heq
      subst heq
      rw [(List.mem_filter.mp hd).2] at hfc
      cases hfc
    exact ⟨mem_active_cleanup_iff hds h, fun r => memRoom_cleanup_iff hds h r⟩
  · intro c
    exact List.nodup_iff_count_le_one.mp (hndm.filter _) c
  · exact length_filter_partition members (fun c => fails c)

/-- Witness for C3: in `hubABC` only handle 2's socket is dead; the
broadcast reaches 1 and 3 and scrubs 2 everywhere. -/
theorem broadcast_failed_cleanup_witness :
    findRoom hubABC "a" = some [1, 2, 3] ∧ HubNodup hubABC ∧
    ((broadcastToRoom (failsOnly 2) "a" none hubABC).delivered
        = [1, 2, 3].filter (fun c => !(failsOnly 2 c)) ∧
      (broadcastToRoom (failsOnly 2) "a" none hubABC).disconnected
        = [1, 2, 3].filter (fun c => failsOnly 2 c) ∧
      (∀ c ∈ (broadcastToRoom (failsOnly 2) "a" none hubABC).disconnected,
        Untracked (broadcastToRoom (failsOnly 2) "a" none hubABC).hub c) ∧
      (∀ c, failsOnly 2 c = false →
        ((c ∈ (broadcastToRoom (failsOnly 2) "a" none
              hubABC).hub.active_connections ↔
            c ∈ hubABC.active_connections) ∧
          ∀ r, (memRoom (broadcastToRoom (failsOnly 2) "a" none hubABC).hub
              r c ↔ memRoom hubABC r c))) ∧
      (∀ c, (broadcastToRoom (failsOnly 2) "a" none
          hubABC).disconnected.count c ≤ 1) ∧
      (broadcastToRoom (failsOnly 2) "a" none hubABC).delivered.length
        + (broadcastToRoom (failsOnly 2) "a" none
            hubABC).disconnected.length
        = [1, 2, 3].length) :=
  ⟨by decide, by decide,
    broadcast_failed_cleanup (failsOnly 2) "a" hubABC [1, 2, 3] (by decide)
      (by decide)⟩

/-- C2 corrected, counterexample: joining handle 0 to rooms "a" and "b"
and then leaving once is a join/leave sequence from the empty hub after
which 0 is still in the registry yet in no room, so presence in the
registry is not equivalent to membership in at least one room. -/
theorem registry_room_iff_cex :
    0 ∈ (applyOps emptyHub
        [Op.join noFail 0 "a", Op.join noFail 0 "b",
          Op.leave 0]).active_connections ∧
    ∀ p ∈ (applyOps emptyHub
        [Op.join noFail 0 "a", Op.join noFail 0 "b", Op.leave 0]).rooms,
      0 ∉ p.2 := by
  decide

/-- C2 amended: one direction of the claimed equivalence does hold — after
any sequence of hub calls from the empty hub, a connection that is a
member of at least one room is in the registry.  (The converse is false,
see the counterexample.) -/
theorem room_member_in_registry (ops : List Op) (c : Conn)
    (hr : inSomeRoom (applyOps emptyHub ops) c) :
    c ∈ (applyOps emptyHub ops).active_connections := by
  have inv := hubInv_applyOps ops hubInv_empty
  obtain ⟨p, hp, hc⟩ := hr
  exact List.count_pos_iff.mp
    (Nat.lt_of_lt_of_le (List.count_pos_iff.mpr hc) (inv c p hp))

/-- Witness for C2's amended direction after a single join. -/
theorem room_member_in_registry_witness :
    inSomeRoom (applyOps emptyHub [Op.join noFail 0 "a"]) 0 ∧
    0 ∈ (applyOps emptyHub [Op.join noFail 0 "a"]).active_connections :=
  ⟨by decide, room_member_in_registry [Op.join noFail 0 "a"] 0 (by decide)⟩

/-- C5 corrected, counterexample: joining the same handle to the same room
twice leaves two occurrences in the registry and two in the room's member
list — `connect` is not idempotent and membership is not at-most-once. -/
theorem join_not_idempotent_cex :
    (applyOps emptyHub
        [Op.join noFail 0 "a", Op.join noFail 0 "a"]).active_connections.count 0
      = 2 ∧
    roomCount (applyOps emptyHub
        [Op.join noFail 0 "a", Op.join noFail 0 "a"]) "a" 0 = 2 := by
  decide

/-- C5 amended: `connect` never errors (it is a total function) and always
appends: each join increments the joining handle's occurrence count in the
registry and in the target room's member list by exactly one, whatever the
transport does to the other members. -/
theorem join_always_appends (fails : Conn → Bool) (ws : Conn)
    (room : String) (h : Hub) :
    (connect fails ws room h).active_connections.count ws
        = h.active_connections.count ws + 1 ∧
    roomCount (connect fails ws room h) room ws
        = roomCount h room ws + 1 := by
  have hm : findRoom (connectMembership ws room h) room
      = some (((findRoom h room).getD []) ++ [ws]) :=
    lookupRoom_roomsAdd_self ws room h.rooms
  unfold connect
  rw [broadcastToRoom_of_some hm]
  set ds := (excludeFilter (some ws)
    (((findRoom h room).getD []) ++ [ws])).filter (fun c => fails c) with hds
  have hdsne : ∀ d ∈ ds, d ≠ ws := by
    intro d hd heq
    subst heq
    exact (mem_excludeFilter.mp (List.mem_filter.mp hd).1).2 rfl
  constructor
  · show (cleanupDisconnected ds
        (connectMembership ws room h)).active_connections.count ws = _
    rw [count_active_cleanup hdsne]
    show (h.active_connections ++ [ws]).count ws = _
    rw [List.count_append]
    simp
  · show roomCount (cleanupDisconnected ds
        (connectMembership ws room h)) room ws = _
    rw [roomCount_cleanup hdsne, roomCount_eq_getD, hm]
    show (((findRoom h room).getD []) ++ [ws]).count ws = _
    rw [List.count_append, roomCount_eq_getD]
    simp

theorem disconnect_untracked_noop {h : Hub} {c : Conn}
    (hu : Untracked h c) : disconnect c h = h := by
  obtain ⟨act, rms⟩ := h
  obtain ⟨ha, hr⟩ := hu
  show Hub.mk (act.erase c) (rms.map (scrub c)) = Hub.mk act rms
  have h1 : act.erase c = act := List.erase_of_not_mem ha
  have h2 : rms.map (scrub c) = rms := by
    have : rms.map (scrub c) = rms.map id :=
      List.map_congr_left (fun p hp => by
        show scrub c p = id p
        unfold scrub
        rw [if_neg (hr p hp)]
        rfl)
    rw [this, List.map_id]
  rw [h1, h2]

/-- C6 corrected, counterexample: handle 0 is joined twice (to rooms "a"
and "b"); a single `disconnect` removes only the first of its two registry
occurrences, and a duplicate inside one room also survives, so one `leave`
does not remove every occurrence. -/
theorem leave_keeps_duplicates_cex :
    0 ∈ (disconnect 0 (applyOps emptyHub
        [Op.join noFail 0 "a", Op.join noFail 0 "b"])).active_connections ∧
    roomCount (disconnect 0 (applyOps emptyHub
        [Op.join noFail 0 "a", Op.join noFail 0 "a"])) "a" 0 = 1 := by
  decide

/-- C6 amended: when the handle occurs at most once in the registry and in
each room's member list (every duplicate-free hub state), one `disconnect`
does remove it from the registry and from every room's member set. -/
theorem leave_scrubs_when_nodup (c : Conn) (h : Hub) (hnd : HubNodup h) :
    Untracked (disconnect c h) c :=
  untracked_self_disconnect hnd c

/-- Witness for C6's amended claim on a duplicate-free two-room hub. -/
theorem leave_scrubs_when_nodup_witness :
    HubNodup (Hub.mk [0, 1] [("a", [0]), ("b", [0, 1])]) ∧
    Untracked (disconnect 0 (Hub.mk [0, 1] [("a", [0]), ("b", [0, 1])])) 0 :=
  ⟨by decide,
    leave_scrubs_when_nodup 0 (Hub.mk [0, 1] [("a", [0]), ("b", [0, 1])])
      (by decide)⟩

/-- C7 corrected, counterexample: after joining handle 0 to room "a"
twice, two successive `disconnect` calls remove both occurrences while a
single call removes one, so the final states differ and `leave` is not
idempotent on every reachable hub state. -/
theorem leave_not_idempotent_cex :
    disconnect 0 (disconnect 0 (applyOps emptyHub
        [Op.join noFail 0 "a", Op.join noFail 0 "a"]))
      ≠ disconnect 0 (applyOps emptyHub
        [Op.join noFail 0 "a", Op.join noFail 0 "a"]) := by
  decide

/-- C7 amended: on duplicate-free hub states `leave` is idempotent —
two successive `disconnect` calls for the same handle end in the same
state as one — and `disconnect` of an untracked handle is a no-op. -/
theorem leave_idempotent_when_nodup (c : Conn) (h : Hub) :
    (HubNodup h → disconnect c (disconnect c h) = disconnect c h) ∧
    (Untracked h c → disconnect c h = h) :=
  ⟨fun hnd => disconnect_untracked_noop (untracked_self_disconnect hnd c),
    fun hu => disconnect_untracked_noop hu⟩

/-- Witness for C7's amended claim on a concrete duplicate-free hub and on
an untracked handle. -/
theorem leave_idempotent_when_nodup_witness :
    (HubNodup (Hub.mk [0, 1] [("a", [0, 1])]) ∧
      disconnect 0 (disconnect 0 (Hub.mk [0, 1] [("a", [0, 1])]))
        = disconnect 0 (Hub.mk [0, 1] [("a", [0, 1])])) ∧
    (Untracked (Hub.mk [1] [("a", [1])]) 0 ∧
      disconnect 0 (Hub.mk [1] [("a", [1])]) = Hub.mk [1] [("a", [1])]) :=
  ⟨⟨by decide,
      (leave_idempotent_when_nodup 0 (Hub.mk [0, 1] [("a", [0, 1])])).1
        (by decide)⟩,
    ⟨by decide,
      (leave_idempotent_when_nodup 0 (Hub.mk [1] [("a", [1])])).2
        (by decide)⟩⟩

/-- C1 corrected, counterexample: handle 0's socket is dead; the personal
send performs its cleanup `disconnect`, yet the call's error component is
`none` — the bare `except` swallowed the failure, so no `SendError`
reaches the caller and the failure is indistinguishable from success. -/
theorem send_error_not_surfaced_cex :
    failsOnly 0 0 = true ∧
    (sendPersonalMessage (failsOnly 0) 0
        (applyOps emptyHub [Op.join noFail 0 "a"])).2 = none ∧
    (sendPersonalMessage (failsOnly 0) 0
        (applyOps emptyHub [Op.join noFail 0 "a"])).1
      = disconnect 0 (applyOps emptyHub [Op.join noFail 0 "a"]) := by
  decide

/-- C1 amended: `send_personal_message` makes exactly one delivery
attempt; on failure its only effect is the single cleanup `disconnect`
(which scrubs the handle from a duplicate-free hub), on success the state
is unchanged, and in both cases the caller receives no error. -/
theorem send_personal_swallows_error (fails : Conn → Bool) (ws : Conn)
    (h : Hub) :
    (sendPersonalMessage fails ws h).2 = none ∧
    (fails ws = false → (sendPersonalMessage fails ws h).1 = h) ∧
    (fails ws = true →
      (sendPersonalMessage fails ws h).1 = disconnect ws h) ∧
    (fails ws = true → HubNodup h →
      Untracked (sendPersonalMessage fails ws h).1 ws) := by
  refine ⟨?_, ?_, ?_, ?_⟩
  · unfold sendPersonalMessage
    split <;> rfl
  · intro hf
    simp [sendPersonalMessage, hf]
  · intro hf
    simp [sendPersonalMessage, hf]
  · intro hf hnd
    simp only [sendPersonalMessage, hf, if_true]
    exact untracked_self_disconnect hnd ws

/-- Witness for C1's amended claim: a dead socket for handle 1 in
`hubABC`. -/
theorem send_personal_swallows_error_witness :
    (sendPersonalMessage (failsOnly 1) 1 hubABC).2 = none ∧
    (failsOnly 1 1 = true ∧
      (sendPersonalMessage (failsOnly 1) 1 hubABC).1
        = disconnect 1 hubABC) ∧
    (HubNodup hubABC ∧ Untracked (sendPersonalMessage (failsOnly 1) 1 hubABC).1 1) :=
  ⟨(send_personal_swallows_error (failsOnly 1) 1 hubABC).1,
    ⟨by decide,
      (send_personal_swallows_error (failsOnly 1) 1 hubABC).2.2.1
        (by decide)⟩,
    ⟨by decide,
      (send_personal_swallows_error (failsOnly 1) 1 hubABC).2.2.2
        (by decide) (by decide)⟩⟩
